import Mathlib

/-!
Verification development for the Si-surface GAP tutorial notebook
(`soap_gap_tutorial_si_surface.ipynb`).

The notebook is glue code over three external systems (an atomistic toolkit,
a tight-binding calculator and the GAP fitting tool).  We shallowly embed the
notebook's own executable logic: the slab builder `build_slab`, the
trajectory-database collection loop (`db.append(atoms.copy())`), the
per-atom RMSE evaluation cells (`Natoms = len(db[0])` and
`np.sqrt(sum((qm/Natoms - pred/Natoms)**2)/len(pred))`), the
Maxwell–Boltzmann initialisation call sites, and the three `teach_sparse`
invocations.  Components whose deciding code lives in the external libraries
(the dynamics callback loop, the `distance_Nb order=2` descriptor) are
modelled from the specification, and their doc comments say so.

Real numbers of the Python floats are embedded as exact rationals; the RMSE
is tracked through the (rational) quantity under the square root, which
determines it, and float division by zero is tracked explicitly by the
`EvalOut.nonfinite` marker.
-/

namespace SiGap

/-- A 3-vector of (exact rational) coordinates. -/
structure Vec3 where
  x : ℚ
  y : ℚ
  z : ℚ
deriving Repr, DecidableEq

instance : Inhabited Vec3 := ⟨⟨0, 0, 0⟩⟩

/-- A Configuration: atoms with species, positions, velocities, the
position-fixed constraint mask, and the (orthorhombic, diagonal) cell. -/
structure Config where
  species : List ℕ
  positions : List Vec3
  velocities : List Vec3
  fixedMask : List Bool
  cell : Vec3
deriving Repr, DecidableEq

instance : Inhabited Config := ⟨⟨[], [], [], [], ⟨0, 0, 0⟩⟩⟩

/-- Embeds `len(atoms)`: the number of atoms of a configuration. -/
def Config.natoms (c : Config) : ℕ := c.positions.length

/-- Error kinds.  `invalidGeometry`, `insufficientData` and
`connectivityStale` are the specification's names (the notebook raises none
of them); `indexError` is Python's `IndexError` (e.g. `db[0]` on an empty
list); `nonPositiveCells` is the `ValueError` that ASE's Bravais lattice
factory raises ("Cannot create a non-positive number of unit cells") when
the product of the replication counts is non-positive; `valueError` is
numpy's zero-size-array reduction `ValueError`
(`positions[:,2].min()` on an empty array). -/
inductive Err
  | invalidGeometry
  | insufficientData
  | connectivityStale
  | indexError
  | nonPositiveCells
  | valueError
deriving Repr, DecidableEq

/-- Result of a float computation: either an exact rational value or a
non-finite float (NaN or ±inf arising from division by zero). -/
inductive EvalOut
  | nonfinite
  | val (q : ℚ)
deriving Repr, DecidableEq

/-! ## Structure Builder (`build_slab`, notebook cell 8) -/

/-- Embeds `latticeconstant=5.44` of the `Diamond('Si', ...)` lattice. -/
def latticeA : ℚ := 544 / 100

/-- The eight-atom basis of the conventional diamond-cubic cell, in
fractional coordinates. -/
def diamondBasis : List Vec3 :=
  [⟨0, 0, 0⟩, ⟨0, 1/2, 1/2⟩, ⟨1/2, 0, 1/2⟩, ⟨1/2, 1/2, 0⟩,
   ⟨1/4, 1/4, 1/4⟩, ⟨1/4, 3/4, 3/4⟩, ⟨3/4, 1/4, 3/4⟩, ⟨3/4, 3/4, 1/4⟩]

/-- Atom positions of `Diamond('Si', latticeconstant=5.44, size=(sx,sy,sz))`:
the basis replicated `sx × sy × sz` times. -/
def diamondPositions (sx sy sz : ℕ) : List Vec3 :=
  (List.range sx).flatMap fun i =>
    (List.range sy).flatMap fun j =>
      (List.range sz).flatMap fun k =>
        diamondBasis.map fun b =>
          ⟨latticeA * (i + b.x), latticeA * (j + b.y), latticeA * (k + b.z)⟩

/-- Embeds `positions[:,2].min()`: minimum z-coordinate, `none` on an empty list
(numpy raises a `ValueError` there). -/
def minZ : List Vec3 → Option ℚ
  | [] => none
  | p :: ps => some (ps.foldl (fun m q => min m q.z) p.z)

/-- The fixed tolerance band `2.0` of
`abs(atoms.positions[:,2] - bottom) < 2.0`. -/
def fixedTol : ℚ := 2

/-- Embeds the body of `build_slab` after the lattice has been built: the
bottom layer (within the tolerance band of `positions[:,2].min()`) is
marked fixed and the cell is set (`add_vacuum` extends it along z).  On an
empty position array, `min()` is numpy's zero-size reduction
`ValueError`. -/
def mkSlab (pos : List Vec3) (cellv : Vec3) : Except Err Config :=
  match minZ pos with
  | none => Except.error Err.valueError
  | some bottom =>
    Except.ok
      { species := pos.map fun _ => 14
        positions := pos
        velocities := pos.map fun _ => ⟨0, 0, 0⟩
        fixedMask := pos.map fun p => decide (|p.z - bottom| < fixedTol)
        cell := cellv }

/-- Embeds `build_slab(size=(sx,sy,sz), vacuum)`: the diamond-cubic Si slab
with the bottom layer fixed and the cell extended along z by `vacuum`.
Python `int` replication counts are embedded as `ℤ`.  ASE's Bravais lattice
factory (`Diamond`) raises `ValueError` ("Cannot create a non-positive
number of unit cells") when the product of the replication counts is
non-positive, before any positions exist; past that guard, a negative count
replicates zero times (its Python `range` is empty), and a then-empty
position array makes `positions[:,2].min()` fail with numpy's zero-size
`ValueError`.  `build_slab` itself adds no validation. -/
def build_slab (sx sy sz : ℤ) (vacuum : ℚ) : Except Err Config :=
  if sx * sy * sz ≤ 0 then Except.error Err.nonPositiveCells
  else
    mkSlab (diamondPositions sx.toNat sy.toNat sz.toNat)
      ⟨latticeA * sx.toNat, latticeA * sy.toNat, latticeA * sz.toNat + vacuum⟩

/-! ## Trajectory Database collection (notebook cell 45) -/

/-- Embeds `atoms.copy()`: an independent copy of a configuration (an explicit
field-by-field copy, mirroring the deep copy that decouples the snapshot from
the live object). -/
def Config.copy (c : Config) : Config :=
  { species := c.species
    positions := c.positions
    velocities := c.velocities
    fixedMask := c.fixedMask
    cell := c.cell }

/-- The state threaded through a dynamics run with the `collect_data`
observer attached: the live configuration mutated by the integrator, the step
counter, and the trajectory database `db`. -/
structure MDState where
  live : Config
  nsteps : ℕ
  db : List Config
deriving Repr, DecidableEq

/-- One dynamics step with the collection observer of
`dynamics.attach(collect_data, interval=10)`: the integrator (an arbitrary
update function `stepFn`) advances the live configuration, the step counter
increments, and on qualifying steps `collect_data` appends
`atoms.copy()` to `db`. -/
def mdStep (stepFn : Config → Config) (interval : ℕ) (s : MDState) : MDState :=
  let live := stepFn s.live
  let n := s.nsteps + 1
  { live := live
    nsteps := n
    db := if n % interval = 0 then s.db ++ [live.copy] else s.db }

/-- Embeds `dynamics.run(steps=n)` with the collection observer attached. -/
def mdRun (stepFn : Config → Config) (interval : ℕ) : ℕ → MDState → MDState
  | 0, s => s
  | n + 1, s => mdRun stepFn interval n (mdStep stepFn interval s)

/-! ## Evaluation / Comparison (notebook cells 60, 61, 63) -/

/-- The evaluation cells:
`Natoms = len(db[0])` (Python raises `IndexError` when `db` is empty),
then `np.sqrt(sum((qm/Natoms - pred/Natoms)**2)/len(pred))`.
We track the quantity under the square root (the mean squared per-atom
error, which determines the RMSE); `EvalOut.nonfinite` marks the cases in
which the float arithmetic divides by zero (a zero atom count or an empty
prediction list) and yields NaN or ±inf instead of a finite number. -/
def rmseSqPerAtom (db : List Config) (qm pred : List ℚ) : Except Err EvalOut :=
  match db with
  | [] => Except.error Err.indexError
  | c0 :: _ =>
    let n : ℚ := (c0.natoms : ℚ)
    if c0.natoms = 0 ∨ pred.length = 0 then Except.ok EvalOut.nonfinite
    else
      Except.ok (EvalOut.val
        ((((qm.zip pred).map fun e => (e.1 / n - e.2 / n) ^ 2).sum) /
          (pred.length : ℚ)))

/-- Per the spec's words ("computes per-atom energies by dividing by atom
count, then root-mean-square error"): divide every reference and predicted
energy by the atom count, then take the mean of the squared differences (the
square of the RMSE). -/
def specMSE (natoms : ℕ) (qm pred : List ℚ) : ℚ :=
  ((((qm.map fun e => e / (natoms : ℚ)).zip
      (pred.map fun e => e / (natoms : ℚ))).map fun e => (e.1 - e.2) ^ 2).sum) /
    (pred.length : ℚ)

/-- The exact per-atom normalization: each snapshot's energies divided by
that snapshot's own atom count (what the notebook's `Natoms = len(db[0])`
normalization agrees with only when all atom counts coincide). -/
def exactMSE (db : List Config) (qm pred : List ℚ) : ℚ :=
  (((db.zip (qm.zip pred)).map fun e =>
      (e.2.1 / (e.1.natoms : ℚ) - e.2.2 / (e.1.natoms : ℚ)) ^ 2).sum) /
    (pred.length : ℚ)

/-! ## Dynamics Engine callback loop

Modelled from the spec: the step/observer loop of the external dynamics
engine (`dynamics.attach(fn, interval=k)`; `dynamics.run(steps)`) is not part
of this repository, only its call sites are.  Per the spec (§4.3): at each
step the integrator updates positions/velocities, then every registered
callback whose interval divides the step count is invoked, in registration
order.  We record the run as a trace of events. -/

/-- An observable event of a dynamics run: the position/velocity update of
step `n`, or the invocation at step `n` of the callback registered at
index `i`. -/
inductive Event
  | update (n : ℕ)
  | callback (n : ℕ) (i : ℕ)
deriving Repr, DecidableEq

/-- Modelled from the spec: callback `i` (with configured interval
`intervals[i]`) qualifies at step `n` when its interval divides `n`. -/
def qualifies (intervals : List ℕ) (n i : ℕ) : Bool :=
  match intervals[i]? with
  | some k => n % k == 0
  | none => false

/-- Modelled from the spec: the events of one dynamics step — the state
update first, then the qualifying callbacks in registration order. -/
def stepEvents (intervals : List ℕ) (n : ℕ) : List Event :=
  Event.update n ::
    ((List.range intervals.length).filter fun i => qualifies intervals n i).map
      (Event.callback n)

/-- Modelled from the spec: the event trace of a run of `steps` dynamics
steps (steps are numbered from 1). -/
def runEvents (intervals : List ℕ) : ℕ → List Event
  | 0 => []
  | n + 1 => runEvents intervals n ++ stepEvents intervals (n + 1)

/-! ## Pairwise descriptor (notebook cells 19–32)

Modelled from the spec: the `distance_Nb order=2 cutoff=4.0` descriptor is
implemented by the external QUIP library; the notebook only constructs it and
calls `count`/`calc` after `set_cutoff`/`calc_connect`.  Per the spec
(§4.5): one scalar per unique unordered atom pair within the cutoff, failing
with `ConnectivityStale` when connectivity was computed with a smaller
cutoff.  Distances are tracked through their squares to stay rational. -/

/-- Squared Euclidean distance between two positions. -/
def dist2 (p q : Vec3) : ℚ :=
  (p.x - q.x) ^ 2 + (p.y - q.y) ^ 2 + (p.z - q.z) ^ 2

/-- Modelled from the spec: the unordered atom pairs (as index pairs
`(i, j)` with `i < j`) whose separation is within the cutoff. -/
def withinPairs (cutoff : ℚ) (c : Config) : List (ℕ × ℕ) :=
  ((List.range c.natoms) ×ˢ (List.range c.natoms)).filter fun p =>
    decide (p.1 < p.2) &&
      decide (dist2 (c.positions.getD p.1 ⟨0, 0, 0⟩)
                    (c.positions.getD p.2 ⟨0, 0, 0⟩) < cutoff ^ 2)

/-- Modelled from the spec: `desc.count(atoms)` for the order=2 descriptor —
the number of pairs within the cutoff, or `ConnectivityStale` when the
connectivity cutoff is smaller than the descriptor's. -/
def desc_count (cutoff connCutoff : ℚ) (c : Config) : Except Err ℕ :=
  if connCutoff < cutoff then Except.error Err.connectivityStale
  else Except.ok (withinPairs cutoff c).length

/-- Modelled from the spec: `desc.calc(atoms).descriptor` for the order=2
descriptor — the list of pair separations (tracked as squared distances),
one per pair within the cutoff. -/
def desc_calc (cutoff connCutoff : ℚ) (c : Config) : Except Err (List ℚ) :=
  if connCutoff < cutoff then Except.error Err.connectivityStale
  else
    Except.ok ((withinPairs cutoff c).map fun p =>
      dist2 (c.positions.getD p.1 ⟨0, 0, 0⟩) (c.positions.getD p.2 ⟨0, 0, 0⟩))

/-- The spec-side pair set: unordered pairs within the cutoff, as a finite
set, for comparing with the list the evaluator produces. -/
def pairSet (cutoff : ℚ) (c : Config) : Finset (ℕ × ℕ) :=
  (Finset.range c.natoms ×ˢ Finset.range c.natoms).filter fun p =>
    p.1 < p.2 ∧ dist2 (c.positions.getD p.1 ⟨0, 0, 0⟩)
                      (c.positions.getD p.2 ⟨0, 0, 0⟩) < cutoff ^ 2

/-- Modelled from the spec: `desc.n_perm` of the order=2 descriptor — the
declared number of index permutations (the notebook cell displays 2). -/
def n_perm : ℕ := 2

/-- Modelled from the spec: `desc.permutations()` of the order=2
descriptor — the identity and the swap of the two atoms (QUIP's 1-based
index-slot arrays). -/
def permutations : List (List ℕ) := [[1, 2], [2, 1]]

/-- Modelled from the spec: the scalar value of the order=2 descriptor on
the atom pair `(i, j)` — the pair separation, tracked as its square. -/
def pairValue (c : Config) (i j : ℕ) : ℚ :=
  dist2 (c.positions.getD i ⟨0, 0, 0⟩) (c.positions.getD j ⟨0, 0, 0⟩)

/-- Applying a permutation (a 1-based index-slot array, as returned by
`permutations`) to an atom pair: slot `k` receives atom `pair.1` when the
array holds `1` there, else atom `pair.2`. -/
def applyPerm (p : List ℕ) (pair : ℕ × ℕ) : ℕ × ℕ :=
  ((if p.getD 0 1 = 1 then pair.1 else pair.2),
   (if p.getD 1 2 = 1 then pair.1 else pair.2))

/-! ## Pipeline-level call sites (notebook cells 5, 13, 51, 56, 69, 79, 86) -/

/-- Embeds `T = 1000.0`, the target temperature in Kelvin. -/
def T : ℚ := 1000

/-- Which Energy/Force Oracle a dynamics run uses. -/
inductive OracleKind
  | tightBinding
  | gapFit
deriving Repr, DecidableEq

/-- The static setup of one dynamics run of the notebook: the oracle
attached to the atoms, the temperature argument (in multiples of
`units.kB`) passed to `MaxwellBoltzmannDistribution` before the run — or
`none` when no such call precedes the run — and the Langevin target
temperature (in multiples of `units.kB`) and friction. -/
structure DynSetup where
  oracle : OracleKind
  mbInitTemp : Option ℚ
  targetTemp : ℚ
  friction : ℚ
deriving Repr, DecidableEq

/-- The two dynamics runs the notebook starts, as written in the source:
the tight-binding run (cell 13) is preceded by
`MaxwellBoltzmannDistribution(atoms, 2.0 * T * units.kB)`; in the fitted-
potential validation run (cell 86) that call is commented out, so no
Maxwell–Boltzmann initialisation happens and the velocities left by the
previous run are reused. -/
def pipelineDynSetups : List DynSetup :=
  [⟨OracleKind.tightBinding, some (2 * T), T, 2/1000⟩,
   ⟨OracleKind.gapFit, none, T, 2/1000⟩]

/-- One descriptor term of a `gap={...}` argument of `teach_sparse`. -/
structure DescTerm where
  family : String
  order : Option ℕ
  cutoff : ℚ
  n_sparse : ℕ
  delta : ℚ
deriving Repr, DecidableEq

/-- One `teach_sparse` command line of the notebook. -/
structure FitInvocation where
  at_file : String
  gapTerms : List DescTerm
  e0 : ℚ
  default_sigma : List ℚ
  gp_file : String
deriving Repr, DecidableEq

/-- The literal reference-energy offset `e0=-29.716948405885105` that every
`teach_sparse` command line of the notebook spells out. -/
def e0Passed : ℚ := -29716948405885105 / 1000000000000000

/-- The three `teach_sparse` invocations of the notebook (cells 56, 69, 79),
as functions of the isolated-atom energy `E0` the notebook computes from the
quantum oracle in cell 51: the commands are literal shell text, so none of
their parameters — in particular not `e0` — depends on `E0`. -/
def fitterInvocations (E0 : ℚ) : List FitInvocation :=
  [{ at_file := "tmp.xyz"
     gapTerms := [⟨"distance_Nb", some 2, 5, 15, 1⟩]
     e0 := e0Passed
     default_sigma := [1/100, 1/2, 0, 0]
     gp_file := "gap_2b.xml" },
   { at_file := "tmp.xyz"
     gapTerms := [⟨"distance_Nb", some 2, 5, 15, 1⟩,
                  ⟨"distance_Nb", some 3, 4, 50, 4/1000⟩]
     e0 := e0Passed
     default_sigma := [5/1000, 1/2, 0, 0]
     gp_file := "gap_3b.xml" },
   { at_file := "tmp.xyz"
     gapTerms := [⟨"distance_Nb", some 2, 5, 15, 1⟩,
                  ⟨"distance_Nb", some 3, 4, 50, 4/1000⟩,
                  ⟨"soap", none, 4, 200, 16/1000⟩]
     e0 := e0Passed
     default_sigma := [1/1000, 1/2, 0, 0]
     gp_file := "gap_2b3bsoap.xml" }]

/-- Concrete one-atom configuration used by closed witnesses. -/
def cfgA : Config :=
  { species := [14]
    positions := [⟨0, 0, 0⟩]
    velocities := [⟨0, 0, 0⟩]
    fixedMask := [false]
    cell := ⟨1, 1, 1⟩ }

/-- Concrete two-atom configuration used by closed witnesses. -/
def cfgB : Config :=
  { species := [14, 14]
    positions := [⟨0, 0, 0⟩, ⟨1, 0, 0⟩]
    velocities := [⟨0, 0, 0⟩, ⟨0, 0, 0⟩]
    fixedMask := [false, false]
    cell := ⟨10, 10, 10⟩ }

/-- The slab `build_slab(size=(1,1,1), vacuum=10)` (8 atoms), used by closed
witnesses. -/
def slab111 : Config := ((build_slab 1 1 1 10).toOption).getD default

/-! ## Helper lemmas -/

lemma foldl_minZ_le (ps : List Vec3) :
    ∀ a : ℚ, ps.foldl (fun m q => min m q.z) a ≤ a ∧
      ∀ p ∈ ps, ps.foldl (fun m q => min m q.z) a ≤ p.z := by
  induction ps with
  | nil => exact fun a => ⟨le_refl a, by simp⟩
  | cons q qs ih =>
    intro a
    refine ⟨le_trans (ih (min a q.z)).1 (min_le_left _ _), ?_⟩
    intro p hp
    rcases List.mem_cons.mp hp with rfl | hp
    · exact le_trans (ih (min a p.z)).1 (min_le_right _ _)
    · exact (ih (min a q.z)).2 p hp

lemma minZ_le {l : List Vec3} {m : ℚ} (h : minZ l = some m) :
    ∀ p ∈ l, m ≤ p.z := by
  match l with
  | [] => simp [minZ] at h
  | p :: ps =>
    simp only [minZ, Option.some.injEq] at h
    subst h
    intro q hq
    rcases List.mem_cons.mp hq with rfl | hq
    · exact (foldl_minZ_le ps q.z).1
    · exact (foldl_minZ_le ps p.z).2 q hq

/-! ## Claims C5 and C6 -/

/-- Claim C5: for every Configuration produced by the Structure Builder
(`build_slab`), an atom is marked position-fixed if and only if its
z-coordinate lies within the fixed tolerance band of the minimum
z-coordinate, and no atom outside that band is fixed. -/
theorem claim_C5 (sx sy sz : ℤ) (vacuum : ℚ) (cfg : Config)
    (h : build_slab sx sy sz vacuum = Except.ok cfg) :
    ∃ bottom, minZ cfg.positions = some bottom ∧
      (∀ p ∈ cfg.positions, bottom ≤ p.z) ∧
      ∀ (i : ℕ) (p : Vec3), cfg.positions[i]? = some p →
        (cfg.fixedMask[i]? = some true ↔ |p.z - bottom| < fixedTol) := by
  unfold build_slab at h
  split at h
  · exact absurd h (by simp)
  generalize hpos : diamondPositions sx.toNat sy.toNat sz.toNat = pos at h
  cases hmin : minZ pos with
  | none => simp [mkSlab, hmin] at h
  | some bottom =>
    simp only [mkSlab, hmin, Except.ok.injEq] at h
    subst h
    refine ⟨bottom, hmin, minZ_le hmin, ?_⟩
    intro i p hp
    simp only at hp ⊢
    rw [List.getElem?_map, hp]
    simp

/-- Claim C5 witness: the 8-atom slab `build_slab(size=(1,1,1), vacuum=10)`
satisfies the fixed-band characterisation. -/
theorem claim_C5_witness :
    ∃ bottom, minZ slab111.positions = some bottom ∧
      (∀ p ∈ slab111.positions, bottom ≤ p.z) ∧
      ∀ (i : ℕ) (p : Vec3), slab111.positions[i]? = some p →
        (slab111.fixedMask[i]? = some true ↔ |p.z - bottom| < fixedTol) :=
  claim_C5 1 1 1 10 slab111 rfl

/-- Claim C3 counterexample: it is not the case that every dynamics run the
notebook starts has Maxwell–Boltzmann velocities assigned at twice the
target temperature — the fitted-potential validation run (the second entry
of `pipelineDynSetups`) has the `MaxwellBoltzmannDistribution` call
commented out. -/
theorem claim_C3_cex :
    ¬ (∀ s ∈ pipelineDynSetups, s.mbInitTemp = some (2 * T)) := by
  intro h
  have h2 := h ⟨OracleKind.gapFit, none, T, 2/1000⟩
    (by simp [pipelineDynSetups])
  simp at h2

/-- Claim C3 (amended): the quantum-oracle dynamics run is preceded by a
Maxwell–Boltzmann velocity initialisation at twice the target temperature;
the fitted-potential validation run has no such initialisation (the call is
commented out) and reuses the velocities left by the previous run. -/
theorem claim_C3 :
    (∀ s ∈ pipelineDynSetups, s.oracle = OracleKind.tightBinding →
      s.mbInitTemp = some (2 * T)) ∧
    (∀ s ∈ pipelineDynSetups, s.oracle = OracleKind.gapFit →
      s.mbInitTemp = none) := by
  constructor
  · intro s hs ho
    simp only [pipelineDynSetups, List.mem_cons, List.not_mem_nil, or_false]
      at hs
    rcases hs with rfl | rfl
    · rfl
    · exact absurd ho (by decide)
  · intro s hs ho
    simp only [pipelineDynSetups, List.mem_cons, List.not_mem_nil, or_false]
      at hs
    rcases hs with rfl | rfl
    · exact absurd ho (by decide)
    · rfl

/-- Claim C3 witness: the tight-binding run's setup record. -/
theorem claim_C3_witness :
    DynSetup.mbInitTemp ⟨OracleKind.tightBinding, some (2 * T), T, 2/1000⟩ =
      some (2 * T) :=
  claim_C3.1 ⟨OracleKind.tightBinding, some (2 * T), T, 2/1000⟩
    (by simp [pipelineDynSetups]) rfl

/-! ## Claim C8 -/

/-- Claim C8: the pairwise (order=2) descriptor declares exactly two index
permutations — the identity and the swap of the two atoms — and applying
either permutation to any atom pair yields the identical scalar value. -/
theorem claim_C8 :
    permutations.length = n_perm ∧ n_perm = 2 ∧
    ∀ (c : Config) (pair : ℕ × ℕ), ∀ p ∈ permutations,
      pairValue c (applyPerm p pair).1 (applyPerm p pair).2 =
        pairValue c pair.1 pair.2 := by
  refine ⟨rfl, rfl, ?_⟩
  intro c pair p hp
  simp only [permutations, List.mem_cons, List.not_mem_nil, or_false] at hp
  rcases hp with rfl | rfl
  · rfl
  · simp only [applyPerm, pairValue, dist2, List.getD]
    norm_num
    ring

/-- Claim C8 witness: both permutations on the concrete pair `(0, 1)` of the
two-atom configuration `cfgB`. -/
theorem claim_C8_witness :
    pairValue cfgB (applyPerm [2, 1] (0, 1)).1 (applyPerm [2, 1] (0, 1)).2 =
      pairValue cfgB 0 1 :=
  claim_C8.2.2 cfgB (0, 1) [2, 1] (by decide)

/-! ## Claim C10 -/

/-- Claim C10: every `teach_sparse` invocation of the pipeline passes the
same literal reference-energy offset `e0 = -29.716948405885105`, and the
invocations do not depend on the isolated-atom energy `E0` computed from the
quantum oracle earlier in the pipeline. -/
theorem claim_C10 (E0 : ℚ) :
    (∀ inv ∈ fitterInvocations E0,
      inv.e0 = -29716948405885105 / 1000000000000000) ∧
    ∀ E0' : ℚ, fitterInvocations E0 = fitterInvocations E0' := by
  refine ⟨?_, fun _ => rfl⟩
  intro inv hinv
  simp only [fitterInvocations, List.mem_cons, List.not_mem_nil, or_false]
    at hinv
  rcases hinv with rfl | rfl | rfl <;> rfl

/-- Claim C10 witness: the 2-body invocation carries the literal offset, and
the invocation list is the same whatever value the quantum oracle returned
for the isolated atom. -/
theorem claim_C10_witness :
    FitInvocation.e0
      ⟨"tmp.xyz", [⟨"distance_Nb", some 2, 5, 15, 1⟩], e0Passed,
       [1/100, 1/2, 0, 0], "gap_2b.xml"⟩ =
      -29716948405885105 / 1000000000000000 ∧
    fitterInvocations 0 = fitterInvocations (-317/10) :=
  ⟨(claim_C10 0).1
      ⟨"tmp.xyz", [⟨"distance_Nb", some 2, 5, 15, 1⟩], e0Passed,
       [1/100, 1/2, 0, 0], "gap_2b.xml"⟩
      (by simp [fitterInvocations]),
   (claim_C10 0).2 (-317/10)⟩

/-! ## Claims C1 and C9 -/

lemma zip_map_div (qm pred : List ℚ) (n : ℚ) :
    ((qm.map fun e => e / n).zip (pred.map fun e => e / n)).map
        (fun e => (e.1 - e.2) ^ 2) =
      (qm.zip pred).map fun e => (e.1 / n - e.2 / n) ^ 2 := by
  rw [List.zip_map, List.map_map]
  apply List.map_congr_left
  intro e _
  rcases e with ⟨a, b⟩
  rfl

/-- Claim C1 counterexample: on the empty database the evaluation cells fail
with Python's `IndexError` (from `len(db[0])`), not with a distinguished
`InsufficientData` error. -/
theorem claim_C1_cex :
    rmseSqPerAtom [] [] [] = Except.error Err.indexError ∧
    rmseSqPerAtom [] [] [] ≠ Except.error Err.insufficientData := by
  refine ⟨rfl, fun h => ?_⟩
  simp [rmseSqPerAtom] at h

/-- Claim C1 (amended): for equal-length reference and predicted energy
sequences derived from a non-empty Trajectory Database with a non-empty
first snapshot, the Evaluation/Comparison cells compute per-atom energies by
dividing each energy by the atom count and return the root-mean-square
error (tracked here through the non-negative quantity under the square
root, which coincides with the spec-side `specMSE` and is finite — never
NaN); on the empty database they fail with an index error (from reading
`db[0]`), not with `InsufficientData`. -/
theorem claim_C1 (db : List Config) (qm pred : List ℚ) :
    (db = [] → rmseSqPerAtom db qm pred = Except.error Err.indexError) ∧
    ∀ h : db ≠ [], (db.head h).natoms ≠ 0 → pred.length = db.length →
      ∃ q, rmseSqPerAtom db qm pred = Except.ok (EvalOut.val q) ∧
        0 ≤ q ∧ q = specMSE (db.head h).natoms qm pred := by
  constructor
  · rintro rfl
    rfl
  · intro hne h0 hlen
    obtain ⟨c0, rest, rfl⟩ := List.exists_cons_of_ne_nil hne
    simp only [List.head_cons] at h0 ⊢
    have hplen : pred.length ≠ 0 := by
      rw [hlen]
      simp
    have hval : rmseSqPerAtom (c0 :: rest) qm pred =
        Except.ok (EvalOut.val
          (((qm.zip pred).map fun e =>
              (e.1 / (c0.natoms : ℚ) - e.2 / (c0.natoms : ℚ)) ^ 2).sum /
            (pred.length : ℚ))) := by
      simp only [rmseSqPerAtom]
      rw [if_neg (by push_neg; exact ⟨h0, hplen⟩)]
    have hspec : specMSE c0.natoms qm pred =
        ((qm.zip pred).map fun e =>
            (e.1 / (c0.natoms : ℚ) - e.2 / (c0.natoms : ℚ)) ^ 2).sum /
          (pred.length : ℚ) := by
      unfold specMSE
      rw [zip_map_div]
    refine ⟨specMSE c0.natoms qm pred, ?_, ?_, rfl⟩
    · rw [hval, hspec]
    · rw [hspec]
      apply div_nonneg
      · apply List.sum_nonneg
        intro x hx
        rcases List.mem_map.mp hx with ⟨e, _, rfl⟩
        exact sq_nonneg _
      · exact Nat.cast_nonneg _

/-- Claim C1 witness: a one-snapshot database with one atom and energies
3 and 4. -/
theorem claim_C1_witness :
    ∃ q, rmseSqPerAtom [cfgA] [3] [4] = Except.ok (EvalOut.val q) ∧
      0 ≤ q ∧ q = specMSE cfgA.natoms [3] [4] :=
  (claim_C1 [cfgA] [3] [4]).2 (by simp) (by decide) rfl

lemma zip_map_natoms_eq :
    ∀ (db : List Config) (l : List (ℚ × ℚ)) (n0 : ℕ),
      (∀ c ∈ db, c.natoms = n0) → db.length = l.length →
      (db.zip l).map (fun e =>
          (e.2.1 / (e.1.natoms : ℚ) - e.2.2 / (e.1.natoms : ℚ)) ^ 2) =
        l.map fun e => (e.1 / (n0 : ℚ) - e.2 / (n0 : ℚ)) ^ 2 := by
  intro db
  induction db with
  | nil =>
    intro l n0 _ hlen
    cases l with
    | nil => rfl
    | cons e l' => simp at hlen
  | cons c db' ih =>
    intro l n0 hall hlen
    cases l with
    | nil => simp at hlen
    | cons e l' =>
      simp only [List.zip_cons_cons, List.map_cons]
      rw [hall c (List.mem_cons_self c db')]
      congr 1
      exact ih l' n0 (fun x hx => hall x (List.mem_cons_of_mem _ hx))
        (by simpa using hlen)

/-- Claim C9: the evaluation cells divide every snapshot's reference and
predicted energies by the atom count of the first stored snapshot
(`Natoms = len(db[0])`): the normalization is well-defined only for a
non-empty database (otherwise the cells fail with an index error), agrees
with the exact per-snapshot per-atom normalization when every snapshot has
the same atom count as the first, and disagrees with it as soon as some
snapshot's atom count differs from the first's (for energies with a
non-zero error on that snapshot). -/
theorem claim_C9 :
    (∀ qm pred : List ℚ,
      rmseSqPerAtom [] qm pred = Except.error Err.indexError) ∧
    (∀ (c0 : Config) (rest : List Config) (qm pred : List ℚ),
      (∀ c ∈ c0 :: rest, c.natoms = c0.natoms) → c0.natoms ≠ 0 →
      qm.length = (c0 :: rest).length → pred.length = (c0 :: rest).length →
      rmseSqPerAtom (c0 :: rest) qm pred =
        Except.ok (EvalOut.val (exactMSE (c0 :: rest) qm pred))) ∧
    (∀ (c0 c1 : Config) (q p : ℚ), c0.natoms ≠ c1.natoms → c0.natoms ≠ 0 →
      c1.natoms ≠ 0 → q ≠ p →
      rmseSqPerAtom [c0, c1] [0, q] [0, p] ≠
        Except.ok (EvalOut.val (exactMSE [c0, c1] [0, q] [0, p]))) := by
  refine ⟨fun qm pred => rfl, ?_, ?_⟩
  · intro c0 rest qm pred hall h0 hq hp
    have hplen : pred.length ≠ 0 := by
      rw [hp]
      simp
    have hziplen : (c0 :: rest).length = (qm.zip pred).length := by
      rw [List.length_zip, hq, hp]
      exact (min_self _).symm
    simp only [rmseSqPerAtom]
    rw [if_neg (by push_neg; exact ⟨h0, hplen⟩)]
    unfold exactMSE
    rw [zip_map_natoms_eq (c0 :: rest) (qm.zip pred) c0.natoms hall hziplen]
  · intro c0 c1 q p hcc h0 h1 hqp hcontra
    have ha : (c0.natoms : ℚ) ≠ 0 := Nat.cast_ne_zero.mpr h0
    have hb : (c1.natoms : ℚ) ≠ 0 := Nat.cast_ne_zero.mpr h1
    have hab : (c0.natoms : ℚ) ≠ (c1.natoms : ℚ) := fun h =>
      hcc (Nat.cast_injective h)
    simp only [rmseSqPerAtom, exactMSE, List.zip_cons_cons, List.zip_nil_right,
      List.map_cons, List.map_nil, List.sum_cons, List.sum_nil,
      List.length_cons, List.length_nil, Except.ok.injEq, EvalOut.val.injEq]
      at hcontra
    rw [if_neg (by push_neg; exact ⟨h0, by simp⟩)] at hcontra
    simp only [Except.ok.injEq, EvalOut.val.injEq] at hcontra
    rw [div_left_inj' (by norm_num : ((0 + 1 + 1 : ℕ) : ℚ) ≠ 0)] at hcontra
    field_simp at hcontra
    rcases hcontra with h | h
    · exact hcc h.symm
    · exact hqp (sub_eq_zero.mp h)

/-- Claim C9 witness: a one-atom first snapshot with a two-atom second
snapshot makes the `len(db[0])` normalization differ from the exact one. -/
theorem claim_C9_witness :
    rmseSqPerAtom [cfgA, cfgB] [0, 1] [0, 0] ≠
      Except.ok (EvalOut.val (exactMSE [cfgA, cfgB] [0, 1] [0, 0])) :=
  claim_C9.2.2 cfgA cfgB 1 0 (by decide) (by decide) (by decide)
    (by norm_num)

/-! ## Claim C2 -/

lemma mdRun_db_extends (f : Config → Config) (k : ℕ) :
    ∀ (n : ℕ) (s : MDState), ∃ t, (mdRun f k n s).db = s.db ++ t := by
  intro n
  induction n with
  | zero => exact fun s => ⟨[], by simp [mdRun]⟩
  | succ m ih =>
    intro s
    obtain ⟨t, ht⟩ := ih (mdStep f k s)
    simp only [mdRun]
    by_cases hk : (s.nsteps + 1) % k = 0
    · exact ⟨[(f s.live).copy] ++ t, by
        rw [ht]; simp [mdStep, hk]⟩
    · exact ⟨t, by rw [ht]; simp [mdStep, hk]⟩

/-- Claim C2: the trajectory database only grows during a run — after any
number of further dynamics steps the old database is an unchanged initial
segment of the new one (no snapshot is removed, reordered or mutated) — and
each step either leaves the database unchanged or appends exactly one
snapshot, an independent copy (`atoms.copy()`) of the live Configuration as
it is at that step; the copy preserves species, positions and cell, so
later mutation of the live Configuration cannot affect stored snapshots. -/
theorem claim_C2 (f : Config → Config) (k n : ℕ) (s : MDState) :
    (∃ t, (mdRun f k n s).db = s.db ++ t) ∧
    (∀ (i : ℕ) (c : Config), s.db[i]? = some c →
      ((mdRun f k n s).db)[i]? = some c) ∧
    ((mdStep f k s).db = s.db ∨
      (mdStep f k s).db = s.db ++ [(f s.live).copy]) ∧
    (∀ c : Config, c.copy = c) := by
  obtain ⟨t, ht⟩ := mdRun_db_extends f k n s
  refine ⟨⟨t, ht⟩, ?_, ?_, ?_⟩
  · intro i c hc
    have hlt : i < s.db.length := by
      by_contra hge
      push_neg at hge
      rw [List.getElem?_eq_none hge] at hc
      exact Option.noConfusion hc
    rw [ht]
    rwa [List.getElem?_append_left hlt]
  · by_cases hk : (s.nsteps + 1) % k = 0
    · exact Or.inr (by simp [mdStep, hk])
    · exact Or.inl (by simp [mdStep, hk])
  · intro c
    rfl

/-- Claim C2 witness: a concrete two-step run with collection interval 1
starting from a database already holding `cfgA`. -/
theorem claim_C2_witness :
    ((mdRun id 1 2 ⟨cfgB, 0, [cfgA]⟩).db)[0]? = some cfgA :=
  (claim_C2 id 1 2 ⟨cfgB, 0, [cfgA]⟩).2.1 0 cfgA rfl

/-! ## Claim C7 -/

lemma withinPairs_nodup (cutoff : ℚ) (c : Config) :
    (withinPairs cutoff c).Nodup :=
  (List.Nodup.product (List.nodup_range _) (List.nodup_range _)).filter _

lemma withinPairs_toFinset (cutoff : ℚ) (c : Config) :
    (withinPairs cutoff c).toFinset = pairSet cutoff c := by
  ext p
  rcases p with ⟨a, b⟩
  simp only [withinPairs, pairSet, List.toFinset_filter, Finset.mem_filter,
    List.mem_toFinset, List.mem_product, List.mem_range, Finset.mem_product,
    Finset.mem_range, Bool.and_eq_true, decide_eq_true_eq]

/-- Claim C7: with connectivity computed to at least the descriptor's cutoff,
the order=2 descriptor's `count` equals the number of unordered atom pairs
whose separation is within the cutoff, and every computed pair value (the
squared pair distance) is non-negative and strictly below the squared
cutoff — i.e. every pair distance is strictly less than the cutoff. -/
theorem claim_C7 (cutoff connCutoff : ℚ) (c : Config)
    (h : cutoff ≤ connCutoff) :
    desc_count cutoff connCutoff c = Except.ok (pairSet cutoff c).card ∧
    ∀ ds, desc_calc cutoff connCutoff c = Except.ok ds →
      ∀ x ∈ ds, 0 ≤ x ∧ x < cutoff ^ 2 := by
  constructor
  · unfold desc_count
    rw [if_neg (not_lt.mpr h), ← withinPairs_toFinset,
      List.toFinset_card_of_nodup (withinPairs_nodup cutoff c)]
  · intro ds hds x hx
    unfold desc_calc at hds
    rw [if_neg (not_lt.mpr h), Except.ok.injEq] at hds
    subst hds
    rcases List.mem_map.mp hx with ⟨p, hp, rfl⟩
    constructor
    · unfold dist2
      positivity
    · have := (List.mem_filter.mp hp).2
      simp only [Bool.and_eq_true, decide_eq_true_eq] at this
      exact this.2

/-- Claim C7 witness: the two-atom configuration `cfgB` with cutoff 4 has
exactly one pair, whose squared distance is below the squared cutoff. -/
theorem claim_C7_witness :
    desc_count 4 4 cfgB = Except.ok (pairSet 4 cfgB).card ∧
    ∀ ds, desc_calc 4 4 cfgB = Except.ok ds →
      ∀ x ∈ ds, 0 ≤ x ∧ x < 4 ^ 2 :=
  claim_C7 4 4 cfgB le_rfl

/-! ## Claim C4 -/

lemma qualifies_lt {intervals : List ℕ} {n i : ℕ}
    (h : qualifies intervals n i = true) : i < intervals.length := by
  unfold qualifies at h
  by_contra hge
  push_neg at hge
  rw [List.getElem?_eq_none hge] at h
  exact Bool.noConfusion h

lemma count_callback_stepEvents (intervals : List ℕ) (m n i : ℕ) :
    (stepEvents intervals m).count (Event.callback n i) =
      if n = m ∧ qualifies intervals n i = true then 1 else 0 := by
  unfold stepEvents
  rw [List.count_cons,
    if_neg (by simp : ¬((Event.update m == Event.callback n i) = true)),
    Nat.add_zero]
  by_cases hnm : n = m
  · subst hnm
    rw [List.count_map_of_injective _ (Event.callback n)
      (fun a b hab => by injection hab)]
    rw [List.count_eq_of_nodup ((List.nodup_range _).filter _)]
    by_cases hq : qualifies intervals n i = true
    · rw [if_pos (List.mem_filter.mpr
        ⟨List.mem_range.mpr (qualifies_lt hq), hq⟩), if_pos ⟨rfl, hq⟩]
    · rw [if_neg (fun hmem => hq (List.mem_filter.mp hmem).2),
        if_neg (fun hc => hq hc.2)]
  · rw [if_neg (fun hc => hnm hc.1)]
    rw [List.count_eq_zero]
    intro hmem
    rcases List.mem_map.mp hmem with ⟨x, _, hx⟩
    exact hnm (by injection hx with h1 _; exact h1.symm)

lemma count_callback_runEvents (intervals : List ℕ) (steps n i : ℕ) :
    (runEvents intervals steps).count (Event.callback n i) =
      if 1 ≤ n ∧ n ≤ steps ∧ qualifies intervals n i = true then 1 else 0 := by
  induction steps with
  | zero =>
    simp only [runEvents, List.count_nil]
    rw [if_neg (by omega)]
  | succ m ih =>
    rw [runEvents, List.count_append, ih, count_callback_stepEvents]
    by_cases hq : qualifies intervals n i = true
    · simp only [hq, and_true]
      split_ifs <;> omega
    · simp [hq]

lemma count_update_stepEvents (intervals : List ℕ) (m n : ℕ) :
    (stepEvents intervals m).count (Event.update n) =
      if n = m then 1 else 0 := by
  unfold stepEvents
  rw [List.count_cons]
  have htail : (((List.range intervals.length).filter fun x =>
      qualifies intervals m x).map (Event.callback m)).count
        (Event.update n) = 0 := by
    rw [List.count_eq_zero]
    intro hmem
    rcases List.mem_map.mp hmem with ⟨x, _, hx⟩
    exact Event.noConfusion hx
  rw [htail]
  by_cases hnm : n = m
  · subst hnm
    simp
  · rw [if_neg hnm,
      if_neg (by simp [Ne.symm hnm] :
        ¬((Event.update m == Event.update n) = true))]

lemma count_update_runEvents (intervals : List ℕ) (steps n : ℕ) :
    (runEvents intervals steps).count (Event.update n) =
      if 1 ≤ n ∧ n ≤ steps then 1 else 0 := by
  induction steps with
  | zero =>
    simp only [runEvents, List.count_nil]
    rw [if_neg (by omega)]
  | succ m ih =>
    rw [runEvents, List.count_append, ih, count_update_stepEvents]
    split_ifs <;> omega

lemma qualifies_iff_dvd (intervals : List ℕ) (n i : ℕ) :
    qualifies intervals n i = true ↔
      ∃ k, intervals[i]? = some k ∧ k ∣ n := by
  unfold qualifies
  cases hgi : intervals[i]? with
  | none => simp
  | some k =>
    simp only [beq_iff_eq, Option.some.injEq]
    constructor
    · intro h
      exact ⟨k, rfl, Nat.dvd_of_mod_eq_zero h⟩
    · rintro ⟨k', hk, hdvd⟩
      cases hk
      exact Nat.mod_eq_zero_of_dvd hdvd

lemma pair_sublist_range {i j n : ℕ} (hij : i < j) (hj : j < n) :
    [i, j].Sublist (List.range n) := by
  have h1 : [i, j].Sublist (List.range (j + 1)) := by
    rw [List.range_succ]
    exact List.Sublist.append
      (List.singleton_sublist.mpr (List.mem_range.mpr hij))
      (List.Sublist.refl [j])
  exact h1.trans (List.range_sublist.mpr (by omega))

lemma callback_sublist_step (intervals : List ℕ) (n i : ℕ)
    (hqi : qualifies intervals n i = true) :
    [Event.update n, Event.callback n i].Sublist (stepEvents intervals n) := by
  unfold stepEvents
  refine List.Sublist.cons₂ _ ?_
  have h1 : [i].Sublist
      ((List.range intervals.length).filter fun x => qualifies intervals n x) :=
    List.singleton_sublist.mpr (List.mem_filter.mpr
      ⟨List.mem_range.mpr (qualifies_lt hqi), hqi⟩)
  simpa using h1.map (Event.callback n)

lemma callbacks_sublist_step (intervals : List ℕ) (n i j : ℕ) (hij : i < j)
    (hqi : qualifies intervals n i = true)
    (hqj : qualifies intervals n j = true) :
    [Event.update n, Event.callback n i, Event.callback n j].Sublist
      (stepEvents intervals n) := by
  unfold stepEvents
  refine List.Sublist.cons₂ _ ?_
  have h1 : [i, j].Sublist (List.range intervals.length) :=
    pair_sublist_range hij (qualifies_lt hqj)
  have h2 := h1.filter (fun x => qualifies intervals n x)
  have h3 : [i, j].filter (fun x => qualifies intervals n x) = [i, j] := by
    simp [List.filter, hqi, hqj]
  rw [h3] at h2
  simpa using h2.map (Event.callback n)

lemma stepEvents_sublist_run (intervals : List ℕ) {n steps : ℕ}
    (h1 : 1 ≤ n) (h2 : n ≤ steps) :
    (stepEvents intervals n).Sublist (runEvents intervals steps) := by
  induction steps with
  | zero => omega
  | succ m ih =>
    rw [runEvents]
    rcases Nat.lt_or_ge n (m + 1) with hlt | hge
    · exact (ih (by omega)).trans (List.sublist_append_left _ _)
    · have hnm : n = m + 1 := by omega
      subst hnm
      exact List.sublist_append_right _ _

/-- Claim C4: in the dynamics engine's step/callback loop (modelled from the
spec), a registered callback with interval `k` fires exactly once at step
`n` if and only if `k` divides `n` and `1 ≤ n ≤ steps`; each step's
position/velocity update happens exactly once; every qualifying callback's
(unique) invocation comes after the (unique) update of its step — the trace
contains `update n` followed by `callback n i` whenever callback `i`
qualifies at step `n` — and when two qualifying callbacks `i < j` fire at
step `n` the trace contains the update of step `n` followed by callback `i`
followed by callback `j`, i.e. callbacks run in registration order. -/
theorem claim_C4 (intervals : List ℕ) (steps n i j : ℕ) :
    ((runEvents intervals steps).count (Event.callback n i) =
      if 1 ≤ n ∧ n ≤ steps ∧ qualifies intervals n i = true then 1 else 0) ∧
    ((runEvents intervals steps).count (Event.update n) =
      if 1 ≤ n ∧ n ≤ steps then 1 else 0) ∧
    (qualifies intervals n i = true ↔
      ∃ k, intervals[i]? = some k ∧ k ∣ n) ∧
    (1 ≤ n → n ≤ steps → qualifies intervals n i = true →
      [Event.update n, Event.callback n i].Sublist
        (runEvents intervals steps)) ∧
    (1 ≤ n → n ≤ steps → i < j → qualifies intervals n i = true →
      qualifies intervals n j = true →
      [Event.update n, Event.callback n i, Event.callback n j].Sublist
        (runEvents intervals steps)) :=
  ⟨count_callback_runEvents intervals steps n i,
   count_update_runEvents intervals steps n,
   qualifies_iff_dvd intervals n i,
   fun h1 h2 hqi =>
     (callback_sublist_step intervals n i hqi).trans
       (stepEvents_sublist_run intervals h1 h2),
   fun h1 h2 hij hqi hqj =>
     (callbacks_sublist_step intervals n i j hij hqi hqj).trans
       (stepEvents_sublist_run intervals h1 h2)⟩

/-- Claim C4 witness: two callbacks with intervals 1 and 2 over a two-step
run; at step 1 only the first callback qualifies and still runs after the
update, and at step 2 both fire, once each, after the update and in
registration order. -/
theorem claim_C4_witness :
    [Event.update 1, Event.callback 1 0].Sublist (runEvents [1, 2] 2) ∧
    [Event.update 2, Event.callback 2 0, Event.callback 2 1].Sublist
      (runEvents [1, 2] 2) ∧
    (runEvents [1, 2] 2).count (Event.callback 2 1) = 1 := by
  refine ⟨(claim_C4 [1, 2] 2 1 0 1).2.2.2.1 (by decide) (by decide)
      (by decide),
    (claim_C4 [1, 2] 2 2 0 1).2.2.2.2 (by decide) (by decide) (by decide)
      (by decide) (by decide), ?_⟩
  rw [(claim_C4 [1, 2] 2 2 1 1).1, if_pos (by decide)]

end SiGap
